import Mathlib

/-!
A shallow embedding in Lean 4 of the knowledge-ingestion engine's core:
the artifact model, the append-only artifact store, the five pipeline
stages (normalize, extract, contextualize, insight, validate) and the
stage-replay protocol of `cli.py`.

Conventions of the embedding:
* Python `str` is modelled as Lean `String` (a wrapper around `List Char`);
  the text-processing helpers work on `List Char`.
* Python `float` confidence arithmetic is modelled exactly over `ℚ`
  (the formulas use only decimal constants, additions and comparisons).
* The filesystem-backed store is modelled as an association list from
  artifact id to the serialized (`to_dict`) record; wall-clock inputs
  (timestamps, measured latency, the `context_store` directory contents)
  are passed explicitly as an environment value.
* Exceptions are modelled with explicit error results; an operation that
  raises before writing returns the unchanged store.
-/

namespace KIE

attribute [local semireducible] Rat.ofScientific Rat.add Rat.sub Rat.mul

/-- Python whitespace characters (`str.isspace` / regex `\s`, ASCII range),
as used by `str.strip()`, `str.split()` and the `\s` classes in
`normalize.py`. -/
def isPyWs (c : Char) : Bool :=
  c = ' ' || c = '\t' || c = '\n' || c = '\x0b' || c = '\x0c' || c = '\r'

/-- Decimal digit character for `d < 10` (used to model Python `str(int)`). -/
def digitChar : Nat → Char
  | 0 => '0' | 1 => '1' | 2 => '2' | 3 => '3' | 4 => '4'
  | 5 => '5' | 6 => '6' | 7 => '7' | 8 => '8' | _ => '9'

/-- Fuelled decimal-digit accumulator (same scheme as `Nat.toDigitsCore`),
structural so that it reduces in the kernel. -/
def digitsAux : Nat → Nat → List Char → List Char
  | 0, _, acc => acc
  | fuel + 1, n, acc =>
    let acc' := digitChar (n % 10) :: acc
    if n < 10 then acc' else digitsAux fuel (n / 10) acc'

/-- Model of Python `str(n)` for a natural number. -/
def natToString (n : Nat) : String :=
  ⟨digitsAux (n + 1) n []⟩

/-- Model of Python `text.split('\n')` (auxiliary, with accumulator). -/
def splitNlAux : List Char → List Char → List (List Char)
  | [], acc => [acc.reverse]
  | c :: cs, acc =>
    if c = '\n' then acc.reverse :: splitNlAux cs [] else splitNlAux cs (c :: acc)

/-- Model of Python `text.split('\n')`. -/
def splitNl (cs : List Char) : List (List Char) :=
  splitNlAux cs []

/-- Model of Python `'\n'.join(lines)`. -/
def joinNl : List (List Char) → List Char
  | [] => []
  | [l] => l
  | l :: ls => l ++ '\n' :: joinNl ls

/-- Model of Python `str.strip()`: drop leading and trailing whitespace. -/
def stripWs (cs : List Char) : List Char :=
  ((cs.dropWhile isPyWs).reverse.dropWhile isPyWs).reverse

/-- A line consisting only of whitespace (possibly empty). -/
def isWsOnly (l : List Char) : Bool :=
  l.all isPyWs

/-- Auxiliary for the blank-line collapse: the flag records whether we are
inside a run of whitespace-only lines that has already emitted its single
blank line. -/
def clAux : Bool → List (List Char) → List (List Char)
  | _, [] => []
  | inBlank, l :: ls =>
    if isWsOnly l then
      if inBlank then clAux true ls else [] :: clAux true ls
    else
      l :: clAux false ls

/-- Verification predicate (not part of the source): a line list is in
collapsed form when every whitespace-only line is empty and no two
whitespace-only lines are adjacent.  `clAux false` is the identity exactly
on such lists. -/
def okBlanks : List (List Char) → Bool
  | [] => true
  | [l] => !isWsOnly l || l.isEmpty
  | l :: l2 :: ls => (!isWsOnly l || (l.isEmpty && !isWsOnly l2)) && okBlanks (l2 :: ls)

/-- Line-level model of `re.sub(r'\n\s*\n+', '\n\n', text)` from
`_clean_text`, valid for already-stripped text: on text with no leading or
trailing whitespace, the regex rewrites each maximal run of
whitespace-only lines lying between two other lines into a single empty
line (leftmost match starts at the newline preceding the run and, by
greediness with backtracking, ends at the last newline of the run, so any
trailing non-newline whitespace of the run stays with the following
line). -/
def collapseLines (ls : List (List Char)) : List (List Char) :=
  clAux false ls

/-- Model of `_clean_text` from `normalize.py`: strip the text, then
normalize multiple blank lines to a single blank line. -/
def clean_text (s : String) : String :=
  ⟨joinNl (collapseLines (splitNl (stripWs s.data)))⟩

/-- The character class `[A-Za-z\s]` of the speaker regex. -/
def clsChar (c : Char) : Bool :=
  c.isAlpha || isPyWs c

/-- Model of `re.match(r'^([A-Za-z][A-Za-z\s]+?):\s*(.*)$', line)` from
`_standardize_speakers`, returning the (stripped) speaker name and the
dialogue.  Because `:` is not in the class, the non-greedy group can only
match the full run of class characters from the start of the line; the
match requires that run to have length at least two, start with a letter
and be followed immediately by `:`.  The dialogue is the rest of the line
after the colon with leading whitespace removed (`\s*` is matched first). -/
def speakerMatch (l : List Char) : Option (List Char × List Char) :=
  match l.takeWhile clsChar, l.dropWhile clsChar with
  | c0 :: r1 :: rs, ':' :: after =>
    if c0.isAlpha then some (stripWs (c0 :: r1 :: rs), after.dropWhile isPyWs) else none
  | _, _ => none

/-- Index of the first occurrence of a name in a list of names. -/
def idxOf : List (List Char) → List Char → Nat
  | [], _ => 0
  | x :: xs, n => if x = n then 0 else idxOf xs n + 1

/-- Model of the loop of `_standardize_speakers`: `seen` is the list of
speaker names in order of first appearance; the dict `speaker_map` of the
source maps a name to `"Speaker " + str(position of first appearance + 1)`,
which is exactly `"Speaker " ++ natToString (idxOf seen name + 1)`. -/
def stdLines (seen : List (List Char)) : List (List Char) → List (List Char)
  | [] => []
  | l :: ls =>
    match speakerMatch l with
    | none => l :: stdLines seen ls
    | some (name, d) =>
      let seen' := if name ∈ seen then seen else seen ++ [name]
      ("Speaker ".data ++ (natToString (idxOf seen' name + 1)).data ++ ": ".data ++ d)
        :: stdLines seen' ls

/-- Model of `_standardize_speakers` from `normalize.py`. -/
def standardize_speakers (s : String) : String :=
  ⟨joinNl (stdLines [] (splitNl s.data))⟩

/-- The text transformation performed by the `normalize` stage:
`_clean_text` followed by `_standardize_speakers`. -/
def normalizeText (s : String) : String :=
  standardize_speakers (clean_text s)

/-- Whether a string ends in a whitespace character. -/
def hasTrailWs (s : String) : Bool :=
  match s.data.getLast? with
  | some c => isPyWs c
  | none => false

/-- The speaker names of a text in order of first appearance (the final
value of the `seen` state of `stdLines`). -/
def seenAfter (seen : List (List Char)) : List (List Char) → List (List Char)
  | [] => seen
  | l :: ls =>
    match speakerMatch l with
    | none => seenAfter seen ls
    | some (name, _) => seenAfter (if name ∈ seen then seen else seen ++ [name]) ls

/-- The distinct `"Name:"` speaker prefixes of a text, in order of first
appearance. -/
def firstSpeakers (s : String) : List String :=
  (seenAfter [] (splitNl s.data)).map (fun l => ⟨l⟩)

/-- The per-line effect of `_standardize_speakers`, given the final list of
speaker names in first-appearance order. -/
def labelLine (names : List (List Char)) (l : List Char) : List Char :=
  match speakerMatch l with
  | none => l
  | some (n, d) =>
    "Speaker ".data ++ (natToString (idxOf names n + 1)).data ++ ": ".data ++ d

/-! ## Extraction-stage helpers (`extract.py`) -/

/-- `dropLead p l` returns `some rest` when `p` is a leading segment of `l`
(with `l = p ++ rest`), else `none`. -/
def dropLead : List Char → List Char → Option (List Char)
  | [], l => some l
  | _ :: _, [] => none
  | p :: ps, c :: cs => if p = c then dropLead ps cs else none

/-- Python `s.startswith(p)` / the `base_name*` glob of `list_versions`. -/
def isLeadOf (p l : List Char) : Bool :=
  (dropLead p l).isSome

/-- Python `p in l` (substring containment). -/
def hasSubL (p : List Char) : List Char → Bool
  | [] => p.isEmpty
  | c :: cs => (dropLead p (c :: cs)).isSome || hasSubL p cs

/-- Model of `re.sub(r'^Speaker \d+:\s*', '', line)` from
`_extract_summary`: if the line starts with `Speaker `, one or more
digits, and a colon, remove that prefix together with the following
whitespace; otherwise return the line unchanged. -/
def stripSpeakerTag (l : List Char) : List Char :=
  match dropLead "Speaker ".data l with
  | none => l
  | some rest =>
    let ds := rest.takeWhile (fun c => c.isDigit)
    if ds.isEmpty then l
    else
      match rest.drop ds.length with
      | ':' :: after => after.dropWhile isPyWs
      | _ => l

/-- Model of `_extract_summary`: first two non-empty (after `strip`) lines,
speaker tags removed, joined with a space. -/
def extract_summary (text : List Char) : List Char :=
  let nonEmpty := ((splitNl text).map stripWs).filter (fun l => !l.isEmpty)
  joinWithSpace ((nonEmpty.take 2).map stripSpeakerTag)
where
  joinWithSpace : List (List Char) → List Char
    | [] => []
    | [l] => l
    | l :: ls => l ++ ' ' :: joinWithSpace ls

/-- Lower-cased copy of a line, Python `str.lower()` (ASCII). -/
def lowerL (l : List Char) : List Char :=
  l.map Char.toLower

/-- Model of `_extract_tasks`: stripped lines whose lower-cased form
contains `will`, `action` or `todo`. -/
def extract_tasks (text : List Char) : List (List Char) :=
  ((splitNl text).filter
    (fun l => hasSubL "will".data (lowerL l) || hasSubL "action".data (lowerL l) ||
      hasSubL "todo".data (lowerL l))).map stripWs

/-- Model of `_extract_decisions`: stripped lines whose lower-cased form
contains `decided` or `agree`. -/
def extract_decisions (text : List Char) : List (List Char) :=
  ((splitNl text).filter
    (fun l => hasSubL "decided".data (lowerL l) || hasSubL "agree".data (lowerL l))).map stripWs

/-! ## Context-stage helpers (`context.py`) -/

/-- The punctuation set of `word.strip('.,!?;:()[]\x7b\x7d"\x27-')`. -/
def isPunct (c : Char) : Bool :=
  c ∈ ['.', ',', '!', '?', ';', ':', '(', ')', '[', ']',
        Char.ofNat 123, Char.ofNat 125, '"', Char.ofNat 39, '-']

/-- Strip leading/trailing punctuation from a word. -/
def stripPunct (w : List Char) : List Char :=
  ((w.dropWhile isPunct).reverse.dropWhile isPunct).reverse

/-- The stopword set of `_retrieve_contexts`. -/
def stopwords : List (List Char) :=
  ["the", "a", "an", "and", "or", "for", "to", "of",
   "in", "on", "at", "with", "we", "i", "it",
   "that", "this", "is", "are", "was", "were"].map String.data

/-- Python `s.split()`: split on whitespace runs, dropping empty pieces. -/
def wordsAux : List Char → List Char → List (List Char)
  | [], acc => if acc.isEmpty then [] else [acc.reverse]
  | c :: cs, acc =>
    if isPyWs c then
      (if acc.isEmpty then wordsAux cs [] else acc.reverse :: wordsAux cs [])
    else wordsAux cs (c :: acc)

/-- The filtered query words of `_retrieve_contexts`: lower-cased words of
the summary, punctuation-stripped, of length at least 3 and not stopwords. -/
def summaryWords (summary : List Char) : List (List Char) :=
  ((wordsAux (lowerL summary) []).map stripPunct).filter
    (fun w => !w.isEmpty && 3 ≤ w.length && !stopwords.contains w)

/-- A context document (the parsed JSON files of `context_store/`). -/
structure CtxDoc where
  context_id : String
  content : String
deriving DecidableEq

/-- Model of `_retrieve_contexts`: a context is retrieved once if any
query word occurs as a substring of its lower-cased content; the two
returned lists are identical. -/
def retrieve_contexts (summary : String) (context_files : List CtxDoc) :
    List String × List String :=
  let ws := summaryWords summary.data
  let ids := context_files.filterMap
    (fun ctx => if ws.any (fun w => hasSubL w (lowerL ctx.content.data))
                then some ctx.context_id else none)
  (ids, ids)

/-- `_compute_confidence` of `context.py`: add `0.02` per retrieved
context, capped at `0.95`. -/
def ctx_compute_confidence (base_confidence : ℚ) (num_contexts : Nat) : ℚ :=
  min (base_confidence + num_contexts * 0.02) 0.95

/-! ## Insight-stage helpers (`insight.py`) -/

/-- `_generate_recommendations` of `insight.py`. -/
def generate_recommendations (tasks decisions : List (List Char)) : List String :=
  (if !tasks.isEmpty then ["Review task ownership and deadlines."] else []) ++
  (if !decisions.isEmpty then ["Validate decision impact on project timeline."] else []) ++
  (if tasks.isEmpty then ["No action items detected."] else [])

/-- `_generate_risk_flags` of `insight.py`. -/
def generate_risk_flags (confidence : ℚ) : List String :=
  if confidence < 0.88 then ["low_confidence"] else []

/-- `_compute_confidence` of `insight.py`: reduce by `0.03`, floor `0.70`. -/
def ins_compute_confidence (base_confidence : ℚ) : ℚ :=
  max (base_confidence - 0.03) 0.70

/-! ## Validation-stage helpers (`validate.py`) -/

/-- `_compute_validation_score`: subtract `0.05` for a `low_confidence`
flag, `0.05` more when no referenced context, floored at `0.60`. -/
def compute_validation_score (confidence : ℚ) (risk_flags : List String)
    (referenced_context : List String) : ℚ :=
  let s1 := if risk_flags.contains "low_confidence" then confidence - 0.05 else confidence
  let s2 := if referenced_context.isEmpty then s1 - 0.05 else s1
  max s2 0.60

/-- `_assess_hallucination_risk`. -/
def assess_hallucination_risk (referenced_context : List String)
    (confidence : ℚ) : String :=
  if referenced_context.isEmpty then "medium"
  else if confidence < 0.80 then "medium"
  else "low"

/-- `_determine_status`. -/
def determine_status (validation_score : ℚ) : String :=
  if 0.85 ≤ validation_score then "validated" else "review_required"

/-! ## The artifact data model (`models/artifact.py`) and the store
(`store/artifact_store.py`) -/

/-- The `content` payload of an artifact: a Python `Dict[str, Any]`
restricted to the keys actually read or written by the five stages; an
absent key is `none`. -/
structure Content where
  text : Option String := none
  summary : Option String := none
  tasks : Option (List String) := none
  decisions : Option (List String) := none
  recommendations : Option (List String) := none
  risk_flags : Option (List String) := none
  validation_score : Option ℚ := none
  hallucination_risk : Option String := none
  source_summary : Option String := none
deriving DecidableEq

/-- The `stage_metadata` bag written by every stage. -/
structure StageMetadata where
  model : String
  tokens : Nat
  cost_usd : ℚ
  latency_ms : Nat
  retrieval_ids : List String
deriving DecidableEq

/-- The `Artifact` dataclass of `models/artifact.py`. -/
structure Artifact where
  artifact_id : String
  type : String
  content : Content
  derived_from : List String := []
  referenced_context : List String := []
  confidence : ℚ := 0
  stage_metadata : StageMetadata
  status : String := "draft"
  version : Nat := 1
  created_at : String
deriving DecidableEq

/-- The serialized record produced by `Artifact.to_dict` (`asdict`), the
form actually written to storage; it carries exactly the fields of the
dataclass. -/
structure ArtDict where
  artifact_id : String
  type : String
  content : Content
  derived_from : List String
  referenced_context : List String
  confidence : ℚ
  stage_metadata : StageMetadata
  status : String
  version : Nat
  created_at : String
deriving DecidableEq

/-- `Artifact.to_dict`. -/
def to_dict (a : Artifact) : ArtDict :=
  ⟨a.artifact_id, a.type, a.content, a.derived_from, a.referenced_context,
   a.confidence, a.stage_metadata, a.status, a.version, a.created_at⟩

/-- `Artifact.from_dict` (`cls(**data)`). -/
def from_dict (d : ArtDict) : Artifact :=
  ⟨d.artifact_id, d.type, d.content, d.derived_from, d.referenced_context,
   d.confidence, d.stage_metadata, d.status, d.version, d.created_at⟩

/-- The artifacts directory: one serialized record per file, keyed by the
filename `"{artifact_id}.json"`. -/
abbrev Store := List (String × ArtDict)

/-- Existence check / read of the file named by an id. -/
def lookupDict : Store → String → Option ArtDict
  | [], _ => none
  | (k, d) :: rest, id => if k = id then some d else lookupDict rest id

inductive StoreErr
  | alreadyExists
  | notFound
deriving DecidableEq

/-- `ArtifactStore.save_artifact`: raises `FileExistsError` when the id is
already present (before anything is written, so the store is returned
unchanged), otherwise writes the serialized record. -/
def save_artifact (store : Store) (a : Artifact) : Option StoreErr × Store :=
  if (lookupDict store a.artifact_id).isSome then
    (some StoreErr.alreadyExists, store)
  else
    (none, (a.artifact_id, to_dict a) :: store)

/-- `ArtifactStore.load_artifact`: `FileNotFoundError` when absent, else
the deserialized artifact. -/
def load_artifact (store : Store) (artifact_id : String) : Except StoreErr Artifact :=
  match lookupDict store artifact_id with
  | none => Except.error StoreErr.notFound
  | some d => Except.ok (from_dict d)

/-- Lexicographic comparison by code point, the Python `str` order used by
`sorted`. -/
def ltCharList : List Char → List Char → Bool
  | [], [] => false
  | [], _ :: _ => true
  | _ :: _, [] => false
  | a :: as, b :: bs =>
    if a.toNat < b.toNat then true
    else if b.toNat < a.toNat then false
    else ltCharList as bs

/-- Python `x < y` on strings. -/
def strLt (x y : String) : Bool :=
  ltCharList x.data y.data

/-- Stable insertion into a lexicographically sorted list of strings. -/
def insertStr (x : String) : List String → List String
  | [] => [x]
  | y :: ys => if strLt x y then x :: y :: ys else y :: insertStr x ys

/-- Python `sorted` on strings: lexicographic by code point. -/
def sortStr (l : List String) : List String :=
  l.foldr insertStr []

/-- `ArtifactStore.list_versions`: all stored ids starting with
`base_name` (the `glob(f"{base_name}*.json")` with the `.json` suffix
removed), returned through Python `sorted`, i.e. in raw lexicographic
string order. -/
def list_versions (store : Store) (base_name : String) : List String :=
  sortStr ((store.map Prod.fst).filter (fun id => isLeadOf base_name.data id.data))

/-! ## The five stages (`stages/*.py`) -/

/-- The ambient inputs a stage reads from the outside world: the UTC date
used in default ids, the creation timestamp, the measured latency, and the
parsed files of the `context_store/` directory in enumeration order. -/
structure Env where
  date_str : String
  now : String
  latency_ms : Nat
  ctx_files : List CtxDoc
deriving DecidableEq

inductive ReplayErr
  | notFound
  | missingParent
  | alreadyExists
  | keyErrorText
deriving DecidableEq

instance exceptDecEq {e a : Type} [DecidableEq e] [DecidableEq a] : DecidableEq (Except e a)
  | Except.error x, Except.error y =>
    if h : x = y then isTrue (by rw [h]) else isFalse (by intro hc; cases hc; exact h rfl)
  | Except.error _, Except.ok _ => isFalse (fun hc => Except.noConfusion hc)
  | Except.ok _, Except.error _ => isFalse (fun hc => Except.noConfusion hc)
  | Except.ok x, Except.ok y =>
    if h : x = y then isTrue (by rw [h]) else isFalse (by intro hc; cases hc; exact h rfl)

/-- The common `store.save_artifact(artifact)`/`return artifact` tail of
every stage function; a `FileExistsError` propagates (raised before the
write, leaving the store unchanged). -/
def saveStep (store : Store) (a : Artifact) : Except ReplayErr Artifact × Store :=
  match save_artifact store a with
  | (some _, st) => (Except.error ReplayErr.alreadyExists, st)
  | (none, st) => (Except.ok a, st)

/-- The artifact constructed by `normalize` (`stages/normalize.py`). -/
def normalize_build (raw_text run_id : String) (version : Nat)
    (derived_from_override : Option (List String)) (artifact_id_override : Option String)
    (env : Env) : Artifact where
  artifact_id :=
    artifact_id_override.getD
      ("transcript_" ++ env.date_str ++ "_" ++ run_id ++ "_v" ++ natToString version)
  type := "transcript"
  content := { text := some (normalizeText raw_text) }
  confidence := 0.95
  version := version
  status := "draft"
  derived_from := derived_from_override.getD []
  referenced_context := []
  stage_metadata := ⟨"deterministic", 0, 0, env.latency_ms, []⟩
  created_at := env.now

/-- The `normalize` stage: clean, standardize, build, persist. -/
def normalize (raw_text run_id : String) (version : Nat)
    (derived_from_override : Option (List String)) (artifact_id_override : Option String)
    (env : Env) (store : Store) : Except ReplayErr Artifact × Store :=
  saveStep store (normalize_build raw_text run_id version derived_from_override
    artifact_id_override env)

/-- The artifact constructed by `extract` from the transcript text. -/
def extract_build (transcript_artifact : Artifact) (transcript_text : String)
    (run_id : String) (version : Nat) (derived_from_override : Option (List String))
    (artifact_id_override : Option String) (env : Env) : Artifact where
  artifact_id :=
    artifact_id_override.getD
      ("extraction_" ++ env.date_str ++ "_" ++ run_id ++ "_v" ++ natToString version)
  type := "extraction"
  content :=
    { summary := some ⟨extract_summary transcript_text.data⟩
      tasks := some ((extract_tasks transcript_text.data).map fun l => ⟨l⟩)
      decisions := some ((extract_decisions transcript_text.data).map fun l => ⟨l⟩) }
  derived_from := derived_from_override.getD [transcript_artifact.artifact_id]
  referenced_context := []
  confidence := 0.85
  version := version
  status := "draft"
  stage_metadata := ⟨"rule-based", 0, 0, env.latency_ms, []⟩
  created_at := env.now

/-- The `extract` stage: reads `content["text"]` (a `KeyError` if absent),
builds, persists. -/
def extract (transcript_artifact : Artifact) (run_id : String) (version : Nat)
    (derived_from_override : Option (List String)) (artifact_id_override : Option String)
    (env : Env) (store : Store) : Except ReplayErr Artifact × Store :=
  match transcript_artifact.content.text with
  | none => (Except.error ReplayErr.keyErrorText, store)
  | some txt =>
    saveStep store (extract_build transcript_artifact txt run_id version
      derived_from_override artifact_id_override env)

/-- The artifact constructed by `contextualize` (`stages/context.py`);
the extraction content is passed through unchanged, and the retrieved ids
become both `referenced_context` and the metadata `retrieval_ids`. -/
def contextualize_build (extraction_artifact : Artifact) (run_id : String) (version : Nat)
    (derived_from_override : Option (List String)) (artifact_id_override : Option String)
    (env : Env) : Artifact :=
  let summary := extraction_artifact.content.summary.getD ""
  let rc := retrieve_contexts summary env.ctx_files
  { artifact_id :=
      artifact_id_override.getD
        ("contextualized_" ++ env.date_str ++ "_" ++ run_id ++ "_v" ++ natToString version)
    type := "contextualized_extraction"
    content := extraction_artifact.content
    derived_from := derived_from_override.getD [extraction_artifact.artifact_id]
    referenced_context := rc.1
    confidence := ctx_compute_confidence extraction_artifact.confidence rc.1.length
    version := version
    status := "draft"
    stage_metadata := ⟨"deterministic_context_injection", 0, 0, env.latency_ms, rc.2⟩
    created_at := env.now }

/-- The `contextualize` stage. -/
def contextualize (extraction_artifact : Artifact) (run_id : String) (version : Nat)
    (derived_from_override : Option (List String)) (artifact_id_override : Option String)
    (env : Env) (store : Store) : Except ReplayErr Artifact × Store :=
  saveStep store (contextualize_build extraction_artifact run_id version
    derived_from_override artifact_id_override env)

/-- The artifact constructed by `generate_insight` (`stages/insight.py`). -/
def insight_build (contextualized_artifact : Artifact) (run_id : String) (version : Nat)
    (derived_from_override : Option (List String)) (artifact_id_override : Option String)
    (env : Env) : Artifact :=
  let content := contextualized_artifact.content
  let tasks := (content.tasks.getD []).map String.data
  let decisions := (content.decisions.getD []).map String.data
  { artifact_id :=
      artifact_id_override.getD
        ("insight_" ++ env.date_str ++ "_" ++ run_id ++ "_v" ++ natToString version)
    type := "insight"
    content :=
      { recommendations := some (generate_recommendations tasks decisions)
        risk_flags := some (generate_risk_flags contextualized_artifact.confidence)
        source_summary := some (content.summary.getD "") }
    derived_from := derived_from_override.getD [contextualized_artifact.artifact_id]
    referenced_context := contextualized_artifact.referenced_context
    confidence := ins_compute_confidence contextualized_artifact.confidence
    version := version
    status := "draft"
    stage_metadata :=
      ⟨"deterministic_interpretation", 0, 0, env.latency_ms,
        contextualized_artifact.referenced_context⟩
    created_at := env.now }

/-- The `generate_insight` stage. -/
def generate_insight (contextualized_artifact : Artifact) (run_id : String) (version : Nat)
    (derived_from_override : Option (List String)) (artifact_id_override : Option String)
    (env : Env) (store : Store) : Except ReplayErr Artifact × Store :=
  saveStep store (insight_build contextualized_artifact run_id version
    derived_from_override artifact_id_override env)

/-- The artifact constructed by `validate` (`stages/validate.py`); the
validation score becomes both `confidence` and the `validation_score`
content field. -/
def validate_build (insight_artifact : Artifact) (run_id : String) (version : Nat)
    (derived_from_override : Option (List String)) (artifact_id_override : Option String)
    (env : Env) : Artifact :=
  let content := insight_artifact.content
  let validation_score := compute_validation_score insight_artifact.confidence
    (content.risk_flags.getD []) insight_artifact.referenced_context
  { artifact_id :=
      artifact_id_override.getD
        ("validated_" ++ env.date_str ++ "_" ++ run_id ++ "_v" ++ natToString version)
    type := "validated_insight"
    content :=
      { recommendations := some (content.recommendations.getD [])
        risk_flags := some (content.risk_flags.getD [])
        validation_score := some validation_score
        hallucination_risk :=
          some (assess_hallucination_risk insight_artifact.referenced_context
            insight_artifact.confidence) }
    derived_from := derived_from_override.getD [insight_artifact.artifact_id]
    referenced_context := insight_artifact.referenced_context
    confidence := validation_score
    version := version
    status := determine_status validation_score
    stage_metadata :=
      ⟨"deterministic_validation", 0, 0, env.latency_ms,
        insight_artifact.referenced_context⟩
    created_at := env.now }

/-- The `validate` stage. -/
def validate (insight_artifact : Artifact) (run_id : String) (version : Nat)
    (derived_from_override : Option (List String)) (artifact_id_override : Option String)
    (env : Env) (store : Store) : Except ReplayErr Artifact × Store :=
  saveStep store (validate_build insight_artifact run_id version
    derived_from_override artifact_id_override env)

/-! ## The replay engine (`cli.py`, `replay`) -/

/-- The stage names accepted by the `replay` subcommand. -/
inductive Stage
  | normalize
  | extract
  | contextualize
  | insight
  | validate
deriving DecidableEq

/-- Model of `re.sub(r'_v\d+$', '', artifact_id)`: strip a trailing `_v`
followed by one or more digits (the match, anchored at the end, removes
the maximal trailing digit run together with the `_v` immediately before
it); if the id does not end that way it is returned unchanged. -/
def stripVTagL (cs : List Char) : List Char :=
  let r := cs.reverse
  let ds := r.takeWhile (fun c => c.isDigit)
  if ds.isEmpty then cs
  else
    match r.drop ds.length with
    | 'v' :: '_' :: rest => rest.reverse
    | _ => cs

/-- String-level version of `stripVTagL`. -/
def stripVersionTag (s : String) : String :=
  ⟨stripVTagL s.data⟩

/-- The run id recovered from the id, `'_'.join(parts[2:-1])`. -/
def runIdOf (artifact_id : String) : String :=
  String.intercalate "_" (((artifact_id.splitOn "_").drop 2).dropLast)

/-- Model of `replay(artifact_id, stage_name)` from `cli.py`: load the
artifact, resolve the stage input (the artifact itself for `normalize`;
the first `derived_from` parent otherwise, failing with a missing-parent
error — reported and aborting before anything is written — when
`derived_from` is empty), compute `new_version = version + 1` and
`new_id = base_id + "_v" + new_version`, and run the stage with the
version, lineage and id overrides. -/
def replay (store : Store) (artifact_id : String) (stage : Stage) (env : Env) :
    Except ReplayErr Artifact × Store :=
  match load_artifact store artifact_id with
  | Except.error _ => (Except.error ReplayErr.notFound, store)
  | Except.ok original =>
    let run_id := runIdOf artifact_id
    let inputRes : Except ReplayErr Artifact :=
      match stage with
      | Stage.normalize => Except.ok original
      | _ =>
        match original.derived_from with
        | [] => Except.error ReplayErr.missingParent
        | parent_id :: _ =>
          match load_artifact store parent_id with
          | Except.error _ => Except.error ReplayErr.notFound
          | Except.ok p => Except.ok p
    match inputRes with
    | Except.error e => (Except.error e, store)
    | Except.ok input =>
      let new_version := original.version + 1
      let base_id := stripVersionTag original.artifact_id
      let new_artifact_id := base_id ++ "_v" ++ natToString new_version
      match stage with
      | Stage.normalize =>
        match input.content.text with
        | none => (Except.error ReplayErr.keyErrorText, store)
        | some txt =>
          normalize txt run_id new_version (some [original.artifact_id])
            (some new_artifact_id) env store
      | Stage.extract =>
        extract input run_id new_version (some [original.artifact_id])
          (some new_artifact_id) env store
      | Stage.contextualize =>
        contextualize input run_id new_version (some [original.artifact_id])
          (some new_artifact_id) env store
      | Stage.insight =>
        generate_insight input run_id new_version (some [original.artifact_id])
          (some new_artifact_id) env store
      | Stage.validate =>
        validate input run_id new_version (some [original.artifact_id])
          (some new_artifact_id) env store

/-! ## Concrete fixtures used by witnesses and scenario claims -/

/-- A stage-metadata value as written by `normalize`. -/
def metaFix : StageMetadata := ⟨"deterministic", 0, 0, 0, []⟩

/-- An environment with an empty `context_store`. -/
def envFix : Env := ⟨"20240101", "2024-01-01T00:00:00Z", 0, []⟩

/-- A stored transcript artifact (version 1 of its family). -/
def tArtFix : Artifact where
  artifact_id := "transcript_20240101_run1_v1"
  type := "transcript"
  content := { text := some "Speaker 1: hi" }
  derived_from := []
  referenced_context := []
  confidence := 0.95
  stage_metadata := metaFix
  status := "draft"
  version := 1
  created_at := "2024-01-01T00:00:00Z"

/-- A store holding exactly `tArtFix`. -/
def storeFix : Store := [("transcript_20240101_run1_v1", to_dict tArtFix)]

/-- The concrete insight artifact of the validate-flooring scenario:
confidence `0.70`, a `low_confidence` risk flag, no referenced context. -/
def insArtFix : Artifact where
  artifact_id := "insight_20240101_run1_v1"
  type := "insight"
  content :=
    { recommendations := some ["No action items detected."]
      risk_flags := some ["low_confidence"]
      source_summary := some "summary" }
  derived_from := ["contextualized_20240101_run1_v1"]
  referenced_context := []
  confidence := 0.70
  stage_metadata := metaFix
  status := "draft"
  version := 1
  created_at := "2024-01-01T00:00:00Z"

/-- An extraction artifact with confidence `0.85` and a three-word summary. -/
def extArtFix : Artifact where
  artifact_id := "extraction_20240101_run1_v1"
  type := "extraction"
  content :=
    { summary := some "budget planning meeting"
      tasks := some []
      decisions := some [] }
  derived_from := ["transcript_20240101_run1_v1"]
  referenced_context := []
  confidence := 0.85
  stage_metadata := metaFix
  status := "draft"
  version := 1
  created_at := "2024-01-01T00:00:00Z"

/-- A context store whose three documents each match one summary word. -/
def envCtxFix : Env :=
  ⟨"20240101", "2024-01-01T00:00:00Z", 0,
    [⟨"ctx_budget", "the budget is big"⟩, ⟨"ctx_planning", "planning docs"⟩,
     ⟨"ctx_meeting", "meeting notes"⟩]⟩

/-- The artifact produced by replaying `normalize` on `tArtFix`. -/
def tArtV2 : Artifact where
  artifact_id := "transcript_20240101_run1_v2"
  type := "transcript"
  content := { text := some "Speaker 1: hi" }
  derived_from := ["transcript_20240101_run1_v1"]
  referenced_context := []
  confidence := 0.95
  stage_metadata := metaFix
  status := "draft"
  version := 2
  created_at := "2024-01-01T00:00:00Z"

/-- The store after that replay. -/
def st2Fix : Store := ("transcript_20240101_run1_v2", to_dict tArtV2) :: storeFix


/-! ## General lemmas -/

theorem from_to_dict (a : Artifact) : from_dict (to_dict a) = a := rfl

theorem data_append (s t : String) : (s ++ t).data = s.data ++ t.data := rfl

theorem str_ext {s t : String} (h : s.data = t.data) : s = t :=
  congrArg String.mk h

/-! ### Decimal representation lemmas -/

theorem digitChar_isDigit (d : Nat) : (digitChar d).isDigit = true := by
  match d with
  | 0 | 1 | 2 | 3 | 4 | 5 | 6 | 7 | 8 => rfl
  | n + 9 => rfl

theorem digitsAux_all_digits (fuel : Nat) :
    ∀ (n : Nat) (acc : List Char), (∀ c ∈ acc, c.isDigit = true) →
      ∀ c ∈ digitsAux fuel n acc, c.isDigit = true := by
  induction fuel with
  | zero => intro n acc hacc; exact hacc
  | succ fuel ih =>
    intro n acc hacc c hc
    have hacc' : ∀ c ∈ digitChar (n % 10) :: acc, c.isDigit = true := by
      intro c hc
      rcases List.mem_cons.mp hc with h | h
      · exact h ▸ digitChar_isDigit _
      · exact hacc c h
    rw [digitsAux] at hc
    by_cases hn : n < 10
    · rw [if_pos hn] at hc
      exact hacc' c hc
    · rw [if_neg hn] at hc
      exact ih (n / 10) _ hacc' c hc

theorem digitsAux_ne_nil (fuel : Nat) :
    ∀ (n : Nat) (acc : List Char), acc ≠ [] → digitsAux fuel n acc ≠ [] := by
  induction fuel with
  | zero => intro n acc hacc; exact hacc
  | succ fuel ih =>
    intro n acc _
    rw [digitsAux]
    by_cases hn : n < 10
    · rw [if_pos hn]; exact List.cons_ne_nil _ _
    · rw [if_neg hn]; exact ih (n / 10) _ (List.cons_ne_nil _ _)

theorem natToString_ne_nil (n : Nat) : (natToString n).data ≠ [] := by
  show digitsAux (n + 1) n [] ≠ []
  rw [digitsAux]
  by_cases hn : n < 10
  · rw [if_pos hn]; exact List.cons_ne_nil _ _
  · rw [if_neg hn]; exact digitsAux_ne_nil n (n / 10) _ (List.cons_ne_nil _ _)

theorem natToString_all_digits (n : Nat) :
    ∀ c ∈ (natToString n).data, c.isDigit = true :=
  digitsAux_all_digits (n + 1) n [] (by intro c hc; cases hc)

/-! ### Version-tag stripping -/

theorem takeWhile_append_not {p : Char → Bool} (l₁ : List Char) (x : Char) (t : List Char)
    (h1 : ∀ a ∈ l₁, p a = true) (hx : p x = false) :
    (l₁ ++ x :: t).takeWhile p = l₁ := by
  induction l₁ with
  | nil => simp [List.takeWhile_cons, hx]
  | cons a l ih =>
    have ha : p a = true := h1 a (List.mem_cons_self a l)
    simp only [List.cons_append, List.takeWhile_cons, ha, if_true]
    rw [ih (fun b hb => h1 b (List.mem_cons_of_mem a hb))]

theorem dropWhile_append_not {p : Char → Bool} (l₁ : List Char) (x : Char) (t : List Char)
    (h1 : ∀ a ∈ l₁, p a = true) (hx : p x = false) :
    (l₁ ++ x :: t).dropWhile p = x :: t := by
  induction l₁ with
  | nil => simp [List.dropWhile_cons, hx]
  | cons a l ih =>
    simp only [List.cons_append, List.dropWhile_cons, h1 a (List.mem_cons_self a l), if_true]
    exact ih (fun b hb => h1 b (List.mem_cons_of_mem a hb))

theorem stripVTagL_append (F ds : List Char) (hne : ds ≠ [])
    (hds : ∀ c ∈ ds, c.isDigit = true) :
    stripVTagL (F ++ '_' :: 'v' :: ds) = F := by
  unfold stripVTagL
  have hrev : (F ++ '_' :: 'v' :: ds).reverse = ds.reverse ++ 'v' :: '_' :: F.reverse := by
    simp
  rw [hrev]
  have htw : (ds.reverse ++ 'v' :: '_' :: F.reverse).takeWhile (fun c => c.isDigit)
      = ds.reverse :=
    takeWhile_append_not _ _ _ (fun a ha => hds a (List.mem_reverse.mp ha)) (by decide)
  have hemp : ds.reverse.isEmpty = false := by
    cases h : ds.reverse with
    | nil => exact absurd (List.reverse_eq_nil_iff.mp h) hne
    | cons a l => rfl
  simp [htw, hemp, List.drop_left]

theorem stripVersionTag_format (F : String) (v : Nat) :
    stripVersionTag (F ++ "_v" ++ natToString v) = F := by
  have hdata : (F ++ "_v" ++ natToString v).data
      = F.data ++ '_' :: 'v' :: (natToString v).data := by
    rw [data_append, data_append]
    simp
  unfold stripVersionTag
  rw [hdata, stripVTagL_append _ _ (natToString_ne_nil v) (natToString_all_digits v)]

/-! ### Shape of a successful replay -/

theorem saveStep_ok {store st' : Store} {a out : Artifact}
    (h : saveStep store a = (Except.ok out, st')) :
    out = a ∧ st' = (a.artifact_id, to_dict a) :: store := by
  unfold saveStep save_artifact at h
  by_cases hl : (lookupDict store a.artifact_id).isSome
  · rw [if_pos hl] at h
    exact absurd (congrArg Prod.fst h) (by simp)
  · rw [if_neg hl] at h
    exact ⟨(Except.ok.injEq _ _ ▸ congrArg Prod.fst h).symm ▸ rfl,
      (congrArg Prod.snd h).symm⟩

/-- Every successful `replay` produces the artifact built with the
version, id and lineage overrides computed from the loaded artifact, and
prepends its serialized record to the store. -/
theorem replay_ok_shape (store : Store) (artifact_id : String) (stage : Stage) (env : Env)
    (out : Artifact) (st' : Store)
    (h : replay store artifact_id stage env = (Except.ok out, st')) :
    ∃ d, lookupDict store artifact_id = some d ∧
      out.version = (from_dict d).version + 1 ∧
      out.artifact_id = stripVersionTag (from_dict d).artifact_id ++ "_v" ++
        natToString ((from_dict d).version + 1) ∧
      out.derived_from = [(from_dict d).artifact_id] ∧
      st' = (out.artifact_id, to_dict out) :: store := by
  unfold replay load_artifact at h
  cases hl : lookupDict store artifact_id with
  | none => rw [hl] at h; exact absurd (congrArg Prod.fst h) (by simp)
  | some d =>
    rw [hl] at h
    refine ⟨d, rfl, ?_⟩
    cases stage with
    | normalize =>
      simp only [] at h
      cases ht : (from_dict d).content.text with
      | none => rw [ht] at h; exact absurd (congrArg Prod.fst h) (by simp)
      | some txt =>
        rw [ht] at h
        unfold normalize at h
        obtain ⟨hout, hst⟩ := saveStep_ok h
        subst hout
        refine ⟨rfl, rfl, rfl, ?_⟩
        simpa using hst
    | extract =>
      simp only [] at h
      cases hdf : (from_dict d).derived_from with
      | nil => rw [hdf] at h; exact absurd (congrArg Prod.fst h) (by simp)
      | cons p ps =>
        rw [hdf] at h
        simp only [] at h
        cases hp : lookupDict store p with
        | none => rw [hp] at h; exact absurd (congrArg Prod.fst h) (by simp)
        | some pd =>
          rw [hp] at h
          simp only [] at h
          unfold extract at h
          cases htx : (from_dict pd).content.text with
          | none => rw [htx] at h; exact absurd (congrArg Prod.fst h) (by simp)
          | some txt =>
            rw [htx] at h
            obtain ⟨hout, hst⟩ := saveStep_ok h
            subst hout
            refine ⟨rfl, rfl, rfl, ?_⟩
            simpa using hst
    | contextualize =>
      simp only [] at h
      cases hdf : (from_dict d).derived_from with
      | nil => rw [hdf] at h; exact absurd (congrArg Prod.fst h) (by simp)
      | cons p ps =>
        rw [hdf] at h
        simp only [] at h
        cases hp : lookupDict store p with
        | none => rw [hp] at h; exact absurd (congrArg Prod.fst h) (by simp)
        | some pd =>
          rw [hp] at h
          simp only [] at h
          unfold contextualize at h
          obtain ⟨hout, hst⟩ := saveStep_ok h
          subst hout
          refine ⟨rfl, rfl, rfl, ?_⟩
          simpa using hst
    | insight =>
      simp only [] at h
      cases hdf : (from_dict d).derived_from with
      | nil => rw [hdf] at h; exact absurd (congrArg Prod.fst h) (by simp)
      | cons p ps =>
        rw [hdf] at h
        simp only [] at h
        cases hp : lookupDict store p with
        | none => rw [hp] at h; exact absurd (congrArg Prod.fst h) (by simp)
        | some pd =>
          rw [hp] at h
          simp only [] at h
          unfold generate_insight at h
          obtain ⟨hout, hst⟩ := saveStep_ok h
          subst hout
          refine ⟨rfl, rfl, rfl, ?_⟩
          simpa using hst
    | validate =>
      simp only [] at h
      cases hdf : (from_dict d).derived_from with
      | nil => rw [hdf] at h; exact absurd (congrArg Prod.fst h) (by simp)
      | cons p ps =>
        rw [hdf] at h
        simp only [] at h
        cases hp : lookupDict store p with
        | none => rw [hp] at h; exact absurd (congrArg Prod.fst h) (by simp)
        | some pd =>
          rw [hp] at h
          simp only [] at h
          unfold validate at h
          obtain ⟨hout, hst⟩ := saveStep_ok h
          subst hout
          refine ⟨rfl, rfl, rfl, ?_⟩
          simpa using hst

/-! ## C1: saving an already-present id -/

/-- C1: for every artifact whose id is already present in the store,
`save_artifact` fails with the AlreadyExists error (`FileExistsError`) and
the previously stored record under that id is left unchanged — the store
is returned exactly as it was, no partial write occurs. -/
theorem c1_save_existing_rejected (store : Store) (a : Artifact) (d : ArtDict)
    (h : lookupDict store a.artifact_id = some d) :
    save_artifact store a = (some StoreErr.alreadyExists, store) ∧
    lookupDict (save_artifact store a).2 a.artifact_id = some d := by
  simp [save_artifact, h]

/-- Witness for C1 at a concrete store and artifact. -/
theorem c1_witness :
    lookupDict storeFix tArtFix.artifact_id = some (to_dict tArtFix) ∧
    (save_artifact storeFix tArtFix = (some StoreErr.alreadyExists, storeFix) ∧
      lookupDict (save_artifact storeFix tArtFix).2 tArtFix.artifact_id =
        some (to_dict tArtFix)) :=
  ⟨by decide, c1_save_existing_rejected storeFix tArtFix (to_dict tArtFix) (by decide)⟩

/-! ## C5: save/load round trip -/

/-- C5: for every artifact whose id is not yet present, `save_artifact`
succeeds and `load_artifact` of that id returns an artifact equal to the
saved one in every field. -/
theorem c5_save_load_round_trip (store : Store) (a : Artifact)
    (h : lookupDict store a.artifact_id = none) :
    (save_artifact store a).1 = none ∧
    load_artifact (save_artifact store a).2 a.artifact_id = Except.ok a := by
  simp [save_artifact, h, load_artifact, lookupDict, from_to_dict]

/-- Witness for C5: a fresh save into the empty store loads back intact. -/
theorem c5_witness :
    lookupDict [] tArtFix.artifact_id = none ∧
    ((save_artifact [] tArtFix).1 = none ∧
      load_artifact (save_artifact [] tArtFix).2 tArtFix.artifact_id = Except.ok tArtFix) :=
  ⟨rfl, c5_save_load_round_trip [] tArtFix rfl⟩

/-! ## C3: ordering of `list_versions` -/

/-- C3 (contradicting the claim): the code sorts matching ids as raw
strings, so with versions 2 and 10 stored, `list_versions` returns
`art_v10` before `art_v2` — lexicographic, not numeric, order. -/
theorem c3_list_versions_lexicographic :
    list_versions [("art_v2", to_dict tArtFix), ("art_v10", to_dict tArtFix)] "art" =
      ["art_v10", "art_v2"] := by decide

/-! ## C7: validate flooring scenario -/

/-- C7: validating an insight artifact with confidence `0.70`, a
`low_confidence` risk flag and empty referenced context yields validation
score and confidence exactly `0.60`, status `review_required`, and
hallucination risk `medium`. -/
theorem c7_validate_flooring :
    (validate_build insArtFix "run1" 1 none none envFix).confidence = 0.60 ∧
    (validate_build insArtFix "run1" 1 none none envFix).content.validation_score =
      some 0.60 ∧
    (validate_build insArtFix "run1" 1 none none envFix).status = "review_required" ∧
    (validate_build insArtFix "run1" 1 none none envFix).content.hallucination_risk =
      some "medium" := by decide

/-! ## C2: replay version monotonicity -/

/-- C2: replaying any stage on a stored artifact with version `v` and id
`F_v<v>` yields (when it succeeds) a new artifact with version exactly
`v + 1`, id exactly `F_v<v+1>`, and `derived_from` exactly the one-element
list holding the replayed artifact's id; a successful replay of the
result yields version `v + 2`. -/
theorem c2_replay_version_monotonic (store : Store) (artifact_id : String) (d : ArtDict)
    (F : String) (v : Nat) (stage : Stage) (env : Env) (out : Artifact) (st₂ : Store)
    (h : lookupDict store artifact_id = some d)
    (hid : (from_dict d).artifact_id = F ++ "_v" ++ natToString v)
    (hv : (from_dict d).version = v)
    (hr : replay store artifact_id stage env = (Except.ok out, st₂)) :
    out.version = v + 1 ∧
    out.artifact_id = F ++ "_v" ++ natToString (v + 1) ∧
    out.derived_from = [(from_dict d).artifact_id] ∧
    ∀ (stage₂ : Stage) (env₂ : Env) (out₂ : Artifact) (st₃ : Store),
      replay st₂ out.artifact_id stage₂ env₂ = (Except.ok out₂, st₃) →
      out₂.version = v + 2 := by
  obtain ⟨d', hd', hver, hidp, hderiv, hst⟩ :=
    replay_ok_shape store artifact_id stage env out st₂ hr
  have hdd : d' = d := by rw [h] at hd'; exact (Option.some.inj hd').symm
  subst hdd
  refine ⟨hv ▸ hver, ?_, hderiv, ?_⟩
  · rw [hidp, hid, hv, stripVersionTag_format]
  · intro stage₂ env₂ out₂ st₃ hr₂
    obtain ⟨d₂, hd₂, hver₂, _, _, _⟩ :=
      replay_ok_shape st₂ out.artifact_id stage₂ env₂ out₂ st₃ hr₂
    have hlk : lookupDict st₂ out.artifact_id = some (to_dict out) := by
      rw [hst]; simp [lookupDict]
    rw [hlk] at hd₂
    have hdo : d₂ = to_dict out := (Option.some.inj hd₂).symm
    subst hdo
    rw [hver₂, from_to_dict, hver, hv]

/-- Witness for C2 at a concrete store: a replay of version 1 yields
version 2 with id `..._v2` and lineage `[..._v1]`, and replaying the
result yields version 3. -/
theorem c2_witness :
    lookupDict storeFix "transcript_20240101_run1_v1" = some (to_dict tArtFix) ∧
    (from_dict (to_dict tArtFix)).artifact_id =
      "transcript_20240101_run1" ++ "_v" ++ natToString 1 ∧
    (from_dict (to_dict tArtFix)).version = 1 ∧
    replay storeFix "transcript_20240101_run1_v1" Stage.normalize envFix =
      (Except.ok tArtV2, st2Fix) ∧
    tArtV2.version = 2 ∧
    tArtV2.artifact_id = "transcript_20240101_run1" ++ "_v" ++ natToString 2 ∧
    tArtV2.derived_from = ["transcript_20240101_run1_v1"] ∧
    (replay st2Fix tArtV2.artifact_id Stage.normalize envFix).1.toOption.map
      Artifact.version = some 3 := by
  have h1 : lookupDict storeFix "transcript_20240101_run1_v1" = some (to_dict tArtFix) := by
    decide
  have h2 : (from_dict (to_dict tArtFix)).artifact_id =
      "transcript_20240101_run1" ++ "_v" ++ natToString 1 := by decide
  have h3 : (from_dict (to_dict tArtFix)).version = 1 := by decide
  have hr : replay storeFix "transcript_20240101_run1_v1" Stage.normalize envFix =
      (Except.ok tArtV2, st2Fix) := by decide
  obtain ⟨o1, o2, o3, o4⟩ :=
    c2_replay_version_monotonic storeFix "transcript_20240101_run1_v1" (to_dict tArtFix)
      "transcript_20240101_run1" 1 Stage.normalize envFix tArtV2 st2Fix h1 h2 h3 hr
  refine ⟨h1, h2, h3, hr, o1, o2, o3.trans (by decide), ?_⟩
  rcases hr₂ : replay st2Fix tArtV2.artifact_id Stage.normalize envFix with ⟨r, st₃⟩
  cases r with
  | error e =>
    have hsome : (replay st2Fix tArtV2.artifact_id Stage.normalize envFix).1.toOption.isSome
        = true := by decide
    rw [hr₂] at hsome
    simp [Except.toOption] at hsome
  | ok out₂ =>
    have := o4 Stage.normalize envFix out₂ st₃ hr₂
    simp [Except.toOption, this]

/-! ## C8: contextualize confidence formula -/

/-- C8: for every input artifact with confidence `b` and retrieved context
list of length `k`, the contextualize stage outputs confidence exactly
`min (b + 0.02 * k) 0.95`; in particular three retrieved contexts with
base confidence `0.85` yield `0.91`. -/
theorem c8_contextualize_confidence :
    (∀ (ext : Artifact) (run_id : String) (version : Nat)
      (dfo : Option (List String)) (ido : Option String) (env : Env),
      (contextualize_build ext run_id version dfo ido env).confidence =
        min (ext.confidence +
          0.02 * ((retrieve_contexts (ext.content.summary.getD "") env.ctx_files).1.length : ℚ))
          0.95) ∧
    (contextualize_build extArtFix "run1" 1 none none envCtxFix).referenced_context.length
      = 3 ∧
    (contextualize_build extArtFix "run1" 1 none none envCtxFix).confidence = 0.91 := by
  refine ⟨fun ext run_id version dfo ido env => ?_, by decide, by decide⟩
  show ctx_compute_confidence _ _ = _
  rw [ctx_compute_confidence, mul_comm]

/-! ## C6: confidence stays in the unit interval -/

/-- C6: every stage maps an input artifact with confidence in `[0, 1]` to
an output artifact with confidence in `[0, 1]` (normalize and extract are
the constants `0.95` and `0.85`; contextualize, insight and validate are
capped/floored formulas). -/
theorem c6_confidence_unit_interval (a : Artifact)
    (h0 : 0 ≤ a.confidence) (h1 : a.confidence ≤ 1)
    (raw txt run_id : String) (version : Nat)
    (dfo : Option (List String)) (ido : Option String) (env : Env) :
    (0 ≤ (normalize_build raw run_id version dfo ido env).confidence ∧
      (normalize_build raw run_id version dfo ido env).confidence ≤ 1) ∧
    (0 ≤ (extract_build a txt run_id version dfo ido env).confidence ∧
      (extract_build a txt run_id version dfo ido env).confidence ≤ 1) ∧
    (0 ≤ (contextualize_build a run_id version dfo ido env).confidence ∧
      (contextualize_build a run_id version dfo ido env).confidence ≤ 1) ∧
    (0 ≤ (insight_build a run_id version dfo ido env).confidence ∧
      (insight_build a run_id version dfo ido env).confidence ≤ 1) ∧
    (0 ≤ (validate_build a run_id version dfo ido env).confidence ∧
      (validate_build a run_id version dfo ido env).confidence ≤ 1) := by
  refine ⟨⟨by norm_num [normalize_build], by norm_num [normalize_build]⟩,
    ⟨by norm_num [extract_build], by norm_num [extract_build]⟩, ⟨?_, ?_⟩, ⟨?_, ?_⟩, ⟨?_, ?_⟩⟩
  · show 0 ≤ ctx_compute_confidence _ _
    have hn : (0 : ℚ) ≤
        ((retrieve_contexts (a.content.summary.getD "") env.ctx_files).1.length : ℚ) :=
      Nat.cast_nonneg _
    exact le_min (by nlinarith) (by norm_num)
  · show ctx_compute_confidence _ _ ≤ 1
    exact le_trans (min_le_right _ _) (by norm_num)
  · show 0 ≤ ins_compute_confidence _
    exact le_trans (by norm_num) (le_max_right _ _)
  · show ins_compute_confidence _ ≤ 1
    exact max_le (by linarith) (by norm_num)
  · show 0 ≤ compute_validation_score _ _ _
    exact le_trans (by norm_num) (le_max_right _ _)
  · show compute_validation_score _ _ _ ≤ 1
    simp only [compute_validation_score]
    refine max_le ?_ (by norm_num)
    split_ifs <;> linarith

/-- Witness for C6 at the concrete insight artifact (confidence `0.70`). -/
theorem c6_witness :
    (0 ≤ (normalize_build "x" "run1" 1 none none envFix).confidence ∧
      (normalize_build "x" "run1" 1 none none envFix).confidence ≤ 1) ∧
    (0 ≤ (extract_build insArtFix "x" "run1" 1 none none envFix).confidence ∧
      (extract_build insArtFix "x" "run1" 1 none none envFix).confidence ≤ 1) ∧
    (0 ≤ (contextualize_build insArtFix "run1" 1 none none envFix).confidence ∧
      (contextualize_build insArtFix "run1" 1 none none envFix).confidence ≤ 1) ∧
    (0 ≤ (insight_build insArtFix "run1" 1 none none envFix).confidence ∧
      (insight_build insArtFix "run1" 1 none none envFix).confidence ≤ 1) ∧
    (0 ≤ (validate_build insArtFix "run1" 1 none none envFix).confidence ∧
      (validate_build insArtFix "run1" 1 none none envFix).confidence ≤ 1) :=
  c6_confidence_unit_interval insArtFix (by decide) (by decide)
    "x" "x" "run1" 1 none none envFix

/-! ## C4: replay of a non-normalize stage with no recorded parent -/

/-- C4: for every stage other than `normalize`, replaying an artifact
whose `derived_from` is empty fails with the missing-parent error and the
store is returned unchanged — nothing is persisted. -/
theorem c4_replay_missing_parent (store : Store) (artifact_id : String) (d : ArtDict)
    (stage : Stage) (env : Env) (hs : stage ≠ Stage.normalize)
    (h : lookupDict store artifact_id = some d) (hd : (from_dict d).derived_from = []) :
    replay store artifact_id stage env = (Except.error ReplayErr.missingParent, store) := by
  cases stage with
  | normalize => exact absurd rfl hs
  | extract => simp [replay, load_artifact, h, hd]
  | contextualize => simp [replay, load_artifact, h, hd]
  | insight => simp [replay, load_artifact, h, hd]
  | validate => simp [replay, load_artifact, h, hd]

/-- Witness for C4: replaying `extract` on the parentless stored
transcript fails with the missing-parent error, store untouched. -/
theorem c4_witness :
    Stage.extract ≠ Stage.normalize ∧
    lookupDict storeFix "transcript_20240101_run1_v1" = some (to_dict tArtFix) ∧
    (from_dict (to_dict tArtFix)).derived_from = [] ∧
    replay storeFix "transcript_20240101_run1_v1" Stage.extract envFix =
      (Except.error ReplayErr.missingParent, storeFix) :=
  ⟨by decide, by decide, by decide,
    c4_replay_missing_parent storeFix "transcript_20240101_run1_v1" (to_dict tArtFix)
      Stage.extract envFix (by decide) (by decide) (by decide)⟩

/-! ## C9: speaker standardization -/

theorem idxOf_append_of_mem {n : List Char} {s : List (List Char)}
    (t : List (List Char)) (h : n ∈ s) : idxOf (s ++ t) n = idxOf s n := by
  induction s with
  | nil => cases h
  | cons x xs ih =>
    by_cases hx : x = n
    · simp [idxOf, hx]
    · rcases List.mem_cons.mp h with h' | h'
      · exact absurd h'.symm hx
      · simp [idxOf, hx, ih h']

theorem seenAfter_extends (L : List (List Char)) :
    ∀ seen, ∃ t, seenAfter seen L = seen ++ t := by
  induction L with
  | nil => intro seen; exact ⟨[], by simp [seenAfter]⟩
  | cons l ls ih =>
    intro seen
    cases hm : speakerMatch l with
    | none =>
      obtain ⟨t, ht⟩ := ih seen
      exact ⟨t, by simp [seenAfter, hm, ht]⟩
    | some nd =>
      obtain ⟨n, d⟩ := nd
      by_cases hmem : n ∈ seen
      · obtain ⟨t, ht⟩ := ih seen
        exact ⟨t, by simp [seenAfter, hm, hmem, ht]⟩
      · obtain ⟨t, ht⟩ := ih (seen ++ [n])
        exact ⟨[n] ++ t, by simp [seenAfter, hm, hmem, ht]⟩

theorem mem_seenAfter_of_seen (L : List (List Char)) (seen : List (List Char))
    (n : List Char) (hn : n ∈ seen) : n ∈ seenAfter seen L := by
  obtain ⟨t, ht⟩ := seenAfter_extends L seen
  rw [ht]
  exact List.mem_append_left _ hn

theorem mem_seenAfter (L : List (List Char)) :
    ∀ (seen : List (List Char)) (l n d : List Char), l ∈ L →
      speakerMatch l = some (n, d) → n ∈ seenAfter seen L := by
  induction L with
  | nil => intro seen l n d h; cases h
  | cons l0 ls ih =>
    intro seen l n d hl hm
    rcases List.mem_cons.mp hl with rfl | hl'
    · have hseen' : n ∈ (if n ∈ seen then seen else seen ++ [n]) := by
        by_cases h : n ∈ seen <;> simp [h]
      simp only [seenAfter, hm]
      exact mem_seenAfter_of_seen ls _ n hseen'
    · cases hm0 : speakerMatch l0 with
      | none =>
        simp only [seenAfter, hm0]
        exact ih seen l n d hl' hm
      | some nd =>
        obtain ⟨n0, d0⟩ := nd
        simp only [seenAfter, hm0]
        exact ih _ l n d hl' hm

theorem seenAfter_nodup (L : List (List Char)) :
    ∀ seen : List (List Char), seen.Nodup → (seenAfter seen L).Nodup := by
  induction L with
  | nil => intro seen h; exact h
  | cons l0 ls ih =>
    intro seen h
    cases hm : speakerMatch l0 with
    | none =>
      simp only [seenAfter, hm]
      exact ih seen h
    | some nd =>
      obtain ⟨n, d⟩ := nd
      simp only [seenAfter, hm]
      apply ih
      by_cases hmem : n ∈ seen
      · simpa [hmem] using h
      · rw [if_neg hmem, List.nodup_append_comm]
        simpa [List.nodup_cons, hmem] using h

theorem stdLines_eq_map (L : List (List Char)) :
    ∀ seen, stdLines seen L = L.map (labelLine (seenAfter seen L)) := by
  induction L with
  | nil => intro seen; rfl
  | cons l ls ih =>
    intro seen
    cases hm : speakerMatch l with
    | none =>
      simp only [stdLines, seenAfter, hm, List.map_cons]
      rw [ih seen]
      congr 1
      simp [labelLine, hm]
    | some nd =>
      obtain ⟨n, d⟩ := nd
      have hmem' : n ∈ (if n ∈ seen then seen else seen ++ [n]) := by
        by_cases h : n ∈ seen <;> simp [h]
      obtain ⟨t, ht⟩ := seenAfter_extends ls (if n ∈ seen then seen else seen ++ [n])
      simp only [stdLines, seenAfter, hm, List.map_cons]
      rw [ih]
      congr 1
      simp only [labelLine, hm]
      rw [ht, idxOf_append_of_mem t hmem']

/-- C9: if a text's distinct speaker prefixes in first-appearance order are
`a`, `b`, `c`, then `_standardize_speakers` rewrites every matched line
whose name is `a` to `Speaker 1: ...`, `b` to `Speaker 2: ...`, and `c` to
`Speaker 3: ...`, leaving all other lines unchanged. -/
theorem c9_three_speakers (t : String) (a b c : String)
    (h : firstSpeakers t = [a, b, c]) :
    standardize_speakers t = ⟨joinNl ((splitNl t.data).map (fun l =>
      match speakerMatch l with
      | none => l
      | some (n, d) =>
        (if n = a.data then "Speaker 1: ".data
         else if n = b.data then "Speaker 2: ".data
         else "Speaker 3: ".data) ++ d))⟩ := by
  have hseen : seenAfter [] (splitNl t.data) = [a.data, b.data, c.data] := by
    have hmapped := congrArg (List.map String.data) h
    rw [firstSpeakers, List.map_map] at hmapped
    have hcomp : (String.data ∘ fun l : List Char => ({ data := l } : String)) = id := rfl
    rw [hcomp, List.map_id] at hmapped
    simpa using hmapped
  have hnd : ([a.data, b.data, c.data] : List (List Char)).Nodup := by
    rw [← hseen]
    exact seenAfter_nodup _ [] List.nodup_nil
  have hab : a.data ≠ b.data := by
    intro hc
    simp [List.nodup_cons, hc] at hnd
  have hac : a.data ≠ c.data := by
    intro hc
    simp [List.nodup_cons, hc] at hnd
  have hbc : b.data ≠ c.data := by
    intro hc
    simp [List.nodup_cons, hc] at hnd
  unfold standardize_speakers
  congr 1
  congr 1
  rw [stdLines_eq_map, hseen]
  apply List.map_congr_left
  intro l hl
  cases hm : speakerMatch l with
  | none => simp [labelLine, hm]
  | some nd =>
    obtain ⟨n, d⟩ := nd
    have hn : n ∈ ([a.data, b.data, c.data] : List (List Char)) := by
      rw [← hseen]
      exact mem_seenAfter _ [] l n d hl hm
    simp only [labelLine, hm]
    rcases List.mem_cons.mp hn with rfl | hn'
    · rw [if_pos rfl]
      have h0 : idxOf [a.data, b.data, c.data] a.data = 0 := by simp [idxOf]
      rw [h0]
      rfl
    rcases List.mem_cons.mp hn' with rfl | hn''
    · rw [if_neg (Ne.symm hab), if_pos rfl]
      have h1 : idxOf [a.data, b.data, c.data] b.data = 1 := by simp [idxOf, hab]
      rw [h1]
      rfl
    rcases List.mem_cons.mp hn'' with rfl | hn'''
    · rw [if_neg (Ne.symm hac), if_neg (Ne.symm hbc)]
      have h2 : idxOf [a.data, b.data, c.data] c.data = 2 := by simp [idxOf, hac, hbc]
      rw [h2]
      rfl
    · cases hn'''

/-- Witness for C9 on a concrete four-line transcript with three distinct
speakers appearing in the order Alice, Bob, Cara West. -/
theorem c9_witness :
    firstSpeakers "Alice: Hello\nBob: Hi there\nAlice: More\nCara West: Bye" =
      ["Alice", "Bob", "Cara West"] ∧
    standardize_speakers "Alice: Hello\nBob: Hi there\nAlice: More\nCara West: Bye" =
      ⟨joinNl ((splitNl "Alice: Hello\nBob: Hi there\nAlice: More\nCara West: Bye".data).map
        (fun l =>
          match speakerMatch l with
          | none => l
          | some (n, d) =>
            (if n = "Alice".data then "Speaker 1: ".data
             else if n = "Bob".data then "Speaker 2: ".data
             else "Speaker 3: ".data) ++ d))⟩ :=
  ⟨by decide,
    c9_three_speakers "Alice: Hello\nBob: Hi there\nAlice: More\nCara West: Bye"
      "Alice" "Bob" "Cara West" (by decide)⟩

/-! ## C10: idempotence of the normalize text transformation -/

/-! ### Lines produced by `splitNl` -/

theorem splitNlAux_no_nl (cs : List Char) :
    ∀ acc, '\n' ∉ acc → ∀ l ∈ splitNlAux cs acc, '\n' ∉ l := by
  induction cs with
  | nil =>
    intro acc hacc l hl
    rcases List.mem_singleton.mp hl with rfl
    simpa using hacc
  | cons c cs ih =>
    intro acc hacc l hl
    by_cases hc : c = '\n'
    · rw [splitNlAux, if_pos hc] at hl
      rcases List.mem_cons.mp hl with rfl | hl'
      · simpa using hacc
      · exact ih [] (by simp) l hl'
    · rw [splitNlAux, if_neg hc] at hl
      refine ih (c :: acc) ?_ l hl
      intro hmem
      rcases List.mem_cons.mp hmem with h | h
      · exact hc h.symm
      · exact hacc h

theorem splitNl_no_nl (cs : List Char) : ∀ l ∈ splitNl cs, '\n' ∉ l :=
  splitNlAux_no_nl cs [] (by simp)

theorem splitNlAux_ne_nil (cs : List Char) : ∀ acc, splitNlAux cs acc ≠ [] := by
  induction cs with
  | nil => intro acc; simp [splitNlAux]
  | cons c cs ih =>
    intro acc
    by_cases hc : c = '\n'
    · rw [splitNlAux, if_pos hc]; exact List.cons_ne_nil _ _
    · rw [splitNlAux, if_neg hc]; exact ih (c :: acc)

theorem splitNl_ne_nil (cs : List Char) : splitNl cs ≠ [] :=
  splitNlAux_ne_nil cs []

theorem splitNlAux_flat (l : List Char) (hl : '\n' ∉ l) :
    ∀ acc, splitNlAux l acc = [acc.reverse ++ l] := by
  induction l with
  | nil => intro acc; simp [splitNlAux]
  | cons c cs ih =>
    intro acc
    have hc : c ≠ '\n' := fun h => hl (h ▸ List.mem_cons_self c cs)
    rw [splitNlAux, if_neg hc, ih (fun h => hl (List.mem_cons_of_mem c h))]
    simp

theorem splitNlAux_append (l rest : List Char) (hl : '\n' ∉ l) :
    ∀ acc, splitNlAux (l ++ '\n' :: rest) acc = (acc.reverse ++ l) :: splitNlAux rest [] := by
  induction l with
  | nil => intro acc; simp [splitNlAux]
  | cons c cs ih =>
    intro acc
    have hc : c ≠ '\n' := fun h => hl (h ▸ List.mem_cons_self c cs)
    rw [List.cons_append, splitNlAux, if_neg hc,
      ih (fun h => hl (List.mem_cons_of_mem c h))]
    simp

theorem splitNl_joinNl (L : List (List Char)) (hne : L ≠ [])
    (hnl : ∀ l ∈ L, '\n' ∉ l) : splitNl (joinNl L) = L := by
  induction L with
  | nil => exact absurd rfl hne
  | cons l ls ih =>
    cases ls with
    | nil =>
      show splitNlAux (joinNl [l]) [] = [l]
      rw [joinNl, splitNlAux_flat l (hnl l (List.mem_cons_self l [])) []]
      simp
    | cons l2 ls2 =>
      show splitNlAux (joinNl (l :: l2 :: ls2)) [] = l :: l2 :: ls2
      rw [joinNl, splitNlAux_append l _ (hnl l (List.mem_cons_self l _)) []]
      have := ih (List.cons_ne_nil l2 ls2)
        (fun x hx => hnl x (List.mem_cons_of_mem l hx))
      simp only [List.reverse_nil, List.nil_append]
      rw [show splitNlAux (joinNl (l2 :: ls2)) [] = splitNl (joinNl (l2 :: ls2)) from rfl,
        this]
      simp

theorem splitNlAux_first (cs : List Char) :
    ∀ acc, ∃ l0 rest, splitNlAux cs acc = (acc.reverse ++ l0) :: rest := by
  induction cs with
  | nil => intro acc; exact ⟨[], [], by simp [splitNlAux]⟩
  | cons c cs ih =>
    intro acc
    by_cases hc : c = '\n'
    · exact ⟨[], splitNlAux cs [], by rw [splitNlAux, if_pos hc]; simp⟩
    · obtain ⟨l0, rest, h⟩ := ih (c :: acc)
      refine ⟨c :: l0, rest, ?_⟩
      rw [splitNlAux, if_neg hc, h]
      simp

/-! ### `stripWs` -/

theorem dropWhile_eq_self_of_head {p : Char → Bool} {cs : List Char}
    (h : ∀ c, cs.head? = some c → p c = false) : cs.dropWhile p = cs := by
  cases cs with
  | nil => rfl
  | cons c cs' => rw [List.dropWhile_cons, h c rfl]; simp

theorem stripWs_eq_self {cs : List Char}
    (hh : ∀ c, cs.head? = some c → isPyWs c = false)
    (hl : ∀ c, cs.getLast? = some c → isPyWs c = false) : stripWs cs = cs := by
  unfold stripWs
  rw [dropWhile_eq_self_of_head hh]
  rw [dropWhile_eq_self_of_head (fun c hc => hl c ((List.head?_reverse cs) ▸ hc))]
  exact List.reverse_reverse cs

theorem dropWhile_head_not {p : Char → Bool} (cs : List Char) :
    ∀ c, (cs.dropWhile p).head? = some c → p c = false := by
  induction cs with
  | nil => intro c hc; cases hc
  | cons a cs ih =>
    intro c hc
    rw [List.dropWhile_cons] at hc
    by_cases ha : p a
    · rw [if_pos ha] at hc; exact ih c hc
    · rw [if_neg ha] at hc
      cases hc
      simpa using ha

theorem stripWs_head (cs : List Char) :
    ∀ c, (stripWs cs).head? = some c → isPyWs c = false := by
  intro c hc
  unfold stripWs at hc
  set X := cs.dropWhile isPyWs with hX
  set Y := X.reverse.dropWhile isPyWs with hY
  obtain ⟨pre, hpre⟩ : Y <:+ X.reverse := List.dropWhile_suffix _
  have hXeq : X = Y.reverse ++ pre.reverse := by
    have := congrArg List.reverse hpre
    simpa using this.symm
  cases hYr : Y.reverse with
  | nil => rw [hYr] at hc; cases hc
  | cons y ys =>
    rw [hYr] at hc
    cases hc
    have hXhead : X.head? = some c := by
      rw [hXeq, hYr]; rfl
    exact dropWhile_head_not cs c hXhead

theorem stripWs_last (cs : List Char) :
    ∀ c, (stripWs cs).getLast? = some c → isPyWs c = false := by
  intro c hc
  unfold stripWs at hc
  rw [List.getLast?_reverse] at hc
  exact dropWhile_head_not _ c hc

/-! ### `clAux` (blank-line collapsing) -/

theorem okBlanks_tail {l : List Char} {ls : List (List Char)}
    (h : okBlanks (l :: ls) = true) : okBlanks ls = true := by
  cases ls with
  | nil => rfl
  | cons l2 ls2 =>
    simp only [okBlanks, Bool.and_eq_true] at h
    exact h.2

theorem okBlanks_head_cond {l l2 : List Char} {ls : List (List Char)}
    (h : okBlanks (l :: l2 :: ls) = true) :
    (!isWsOnly l || (l.isEmpty && !isWsOnly l2)) = true := by
  simp only [okBlanks, Bool.and_eq_true] at h
  exact h.1

theorem clAux_id (L : List (List Char)) (h : okBlanks L = true) :
    clAux false L = L ∧
      (∀ l ls, L = l :: ls → isWsOnly l = false → clAux true L = L) := by
  induction L with
  | nil => exact ⟨rfl, fun l ls heq => by cases heq⟩
  | cons l ls ih =>
    obtain ⟨ihf, iht⟩ := ih (okBlanks_tail h)
    by_cases hw : isWsOnly l
    · have hleq : l = [] := by
        cases ls with
        | nil => simpa [okBlanks, hw, List.isEmpty_iff] using h
        | cons l2 ls2 =>
          have hc := okBlanks_head_cond h
          simp [hw] at hc
          exact hc.1
      have htrue : clAux true ls = ls := by
        cases ls with
        | nil => rfl
        | cons l2 ls2 =>
          have hc := okBlanks_head_cond h
          simp [hw] at hc
          exact iht l2 ls2 rfl (by simpa using hc.2)
      constructor
      · rw [clAux, if_pos hw, htrue, hleq]
        simp
      · intro l' ls' heq hws
        injection heq with h1 _
        rw [← h1, hw] at hws
        cases hws
    · constructor
      · rw [clAux, if_neg hw, ihf]
      · intro l' ls' heq hws
        rw [clAux, if_neg hw, ihf]

theorem clAux_ok (L : List (List Char)) :
    okBlanks (clAux false L) = true ∧ okBlanks (clAux true L) = true ∧
      (∀ l ls, clAux true L = l :: ls → isWsOnly l = false) := by
  induction L with
  | nil => exact ⟨rfl, rfl, fun l ls heq => by cases heq⟩
  | cons l0 ls ih =>
    obtain ⟨ihf, iht, ihh⟩ := ih
    by_cases hw : isWsOnly l0
    · refine ⟨?_, ?_, ?_⟩
      · rw [clAux, if_pos hw]
        cases hct : clAux true ls with
        | nil => rfl
        | cons m ms =>
          rw [hct] at iht
          have hm := ihh m ms hct
          simp [okBlanks, hm, iht]
      · rw [clAux, if_pos hw]
        exact iht
      · intro l ls' heq
        rw [clAux, if_pos hw] at heq
        exact ihh l ls' heq
    · have hstep : ∀ b, clAux b (l0 :: ls) = l0 :: clAux false ls := by
        intro b
        cases b <;> rw [clAux, if_neg hw]
      refine ⟨?_, ?_, ?_⟩
      · rw [hstep]
        cases hcf : clAux false ls with
        | nil => simp [okBlanks, hw]
        | cons m ms =>
          rw [hcf] at ihf
          simp [okBlanks, hw, ihf]
      · rw [hstep]
        cases hcf : clAux false ls with
        | nil => simp [okBlanks, hw]
        | cons m ms =>
          rw [hcf] at ihf
          simp [okBlanks, hw, ihf]
      · intro l ls' heq
        rw [hstep] at heq
        injection heq with h1 _
        rw [← h1]
        simpa using hw

theorem clAux_mem (L : List (List Char)) :
    ∀ (b : Bool), ∀ l ∈ clAux b L, l = [] ∨ l ∈ L := by
  induction L with
  | nil => intro b l hl; cases hl
  | cons l0 ls ih =>
    intro b l hl
    by_cases hw : isWsOnly l0
    · cases b with
      | true =>
        rw [clAux, if_pos hw] at hl
        rcases ih true l hl with h | h
        · exact Or.inl h
        · exact Or.inr (List.mem_cons_of_mem l0 h)
      | false =>
        rw [clAux, if_pos hw] at hl
        rcases List.mem_cons.mp hl with rfl | hl'
        · exact Or.inl rfl
        · rcases ih true l hl' with h | h
          · exact Or.inl h
          · exact Or.inr (List.mem_cons_of_mem l0 h)
    · rw [clAux, if_neg hw] at hl
      rcases List.mem_cons.mp hl with rfl | hl'
      · exact Or.inr (List.mem_cons_self _ _)
      · rcases ih false l hl' with h | h
        · exact Or.inl h
        · exact Or.inr (List.mem_cons_of_mem l0 h)

theorem clAux_false_ne_nil (l0 : List Char) (ls : List (List Char)) :
    clAux false (l0 :: ls) ≠ [] := by
  by_cases hw : isWsOnly l0
  · rw [clAux, if_pos hw]; exact List.cons_ne_nil _ _
  · rw [clAux, if_neg hw]; exact List.cons_ne_nil _ _

/-! ### Character classes -/

theorem isAlpha_false_of_isDigit {c : Char} (h : c.isDigit = true) : c.isAlpha = false := by
  simp only [Char.isDigit, ge_iff_le, Bool.and_eq_true, decide_eq_true_eq] at h
  obtain ⟨h1, h2⟩ := h
  have h1' : (48 : Nat) ≤ c.val.toNat := h1
  have h2' : c.val.toNat ≤ 57 := h2
  simp only [Char.isAlpha, Char.isUpper, Char.isLower, ge_iff_le, Bool.or_eq_false_iff,
    Bool.and_eq_false_iff, decide_eq_false_iff_not, not_le]
  constructor
  · by_cases h3 : (65 : Nat) ≤ c.val.toNat
    · right
      intro hc
      have hc' : c.val.toNat ≤ 90 := hc
      omega
    · left
      intro hc
      have hc' : (65 : Nat) ≤ c.val.toNat := hc
      omega
  · left
    intro hc
    have hc' : (97 : Nat) ≤ c.val.toNat := hc
    omega

theorem isPyWs_false_of_isDigit {c : Char} (h : c.isDigit = true) : isPyWs c = false := by
  cases hc : isPyWs c
  · rfl
  · exfalso
    simp only [isPyWs, Bool.or_eq_true, decide_eq_true_eq] at hc
    rcases hc with ((((rfl | rfl) | rfl) | rfl) | rfl) | rfl <;> exact absurd h (by decide)

theorem clsChar_false_of_isDigit {c : Char} (h : c.isDigit = true) : clsChar c = false := by
  simp [clsChar, isAlpha_false_of_isDigit h, isPyWs_false_of_isDigit h]

theorem isPyWs_false_of_isAlpha {c : Char} (h : c.isAlpha = true) : isPyWs c = false := by
  cases hc : isPyWs c
  · rfl
  · exfalso
    simp only [isPyWs, Bool.or_eq_true, decide_eq_true_eq] at hc
    rcases hc with ((((rfl | rfl) | rfl) | rfl) | rfl) | rfl <;> exact absurd h (by decide)

theorem ne_nl_of_isDigit {c : Char} (h : c.isDigit = true) : c ≠ '\n' := by
  intro hc
  subst hc
  exact absurd h (by decide)

/-! ### `speakerMatch` facts -/

theorem speakerMatch_none_of_wsOnly {l : List Char} (hw : isWsOnly l = true) :
    speakerMatch l = none := by
  have hdw : l.dropWhile clsChar = [] := by
    rw [List.dropWhile_eq_nil_iff]
    intro x hx
    have := List.all_eq_true.mp hw x hx
    simp [clsChar, this]
  cases htw : l.takeWhile clsChar with
  | nil => rw [speakerMatch, htw, hdw]
  | cons c0 rest =>
    cases rest with
    | nil => rw [speakerMatch, htw, hdw]
    | cons r1 rs => rw [speakerMatch, htw, hdw]

theorem speakerMatch_some_elim {l n d : List Char}
    (hm : speakerMatch l = some (n, d)) :
    ∃ c0 r1 rs after, l.takeWhile clsChar = c0 :: r1 :: rs ∧
      l.dropWhile clsChar = ':' :: after ∧ c0.isAlpha = true ∧
      n = stripWs (c0 :: r1 :: rs) ∧ d = after.dropWhile isPyWs := by
  unfold speakerMatch at hm
  split at hm
  · next c0 r1 rs after htw hdw =>
    split at hm
    · next halpha =>
      obtain ⟨hn, hd⟩ := Prod.mk.injEq .. ▸ Option.some.inj hm
      exact ⟨c0, r1, rs, after, htw, hdw, halpha, hn.symm, hd.symm⟩
    · next => cases hm
  · next => cases hm

theorem takeWhile_cons_elim {p : Char → Bool} {l : List Char} {c0 : Char}
    {rest : List Char} (h : l.takeWhile p = c0 :: rest) :
    ∃ t, l = c0 :: t ∧ p c0 = true := by
  cases l with
  | nil => cases h
  | cons a t =>
    rw [List.takeWhile_cons] at h
    by_cases ha : p a
    · rw [if_pos ha] at h
      injection h with h1 _
      exact ⟨t, by rw [h1], h1 ▸ ha⟩
    · rw [if_neg ha] at h
      cases h

theorem wsOnly_false_of_match {l n d : List Char}
    (hm : speakerMatch l = some (n, d)) : isWsOnly l = false := by
  obtain ⟨c0, r1, rs, after, htw, _, halpha, _, _⟩ := speakerMatch_some_elim hm
  obtain ⟨t, rfl, _⟩ := takeWhile_cons_elim htw
  simp [isWsOnly, isPyWs_false_of_isAlpha halpha]

theorem speakerMatch_d_subset {l n d : List Char}
    (hm : speakerMatch l = some (n, d)) : ∀ c ∈ d, c ∈ l := by
  obtain ⟨c0, r1, rs, after, _, hdw, _, _, hd⟩ := speakerMatch_some_elim hm
  intro c hc
  rw [hd] at hc
  have h1 : c ∈ after := (List.dropWhile_sublist _).subset hc
  have h2 : c ∈ l.dropWhile clsChar := by
    rw [hdw]
    exact List.mem_cons_of_mem _ h1
  exact (List.dropWhile_sublist _).subset h2

theorem speakerMatch_speaker_line (ds d : List Char) (d0 : Char) (dt : List Char)
    (hds : ds = d0 :: dt) (hdig : ∀ c ∈ ds, c.isDigit = true) :
    speakerMatch ("Speaker ".data ++ ds ++ ": ".data ++ d) = none := by
  subst hds
  have hd0 : d0.isDigit = true := hdig d0 (List.mem_cons_self _ _)
  have hcls : clsChar d0 = false := clsChar_false_of_isDigit hd0
  have harr : "Speaker ".data ++ (d0 :: dt) ++ ": ".data ++ d
      = "Speaker ".data ++ d0 :: (dt ++ ": ".data ++ d) := by simp
  have htw : ("Speaker ".data ++ d0 :: (dt ++ ": ".data ++ d)).takeWhile clsChar
      = "Speaker ".data :=
    takeWhile_append_not _ _ _ (by decide) hcls
  have hdw : ("Speaker ".data ++ d0 :: (dt ++ ": ".data ++ d)).dropWhile clsChar
      = d0 :: (dt ++ ": ".data ++ d) :=
    dropWhile_append_not _ _ _ (by decide) hcls
  rw [harr, speakerMatch, htw, hdw]
  have hne : d0 ≠ ':' := by
    intro hc
    subst hc
    exact absurd hd0 (by decide)
  simp [hne]

/-! ### `labelLine` preservation facts -/

theorem wsOnly_append_speaker (x : List Char) : isWsOnly ("Speaker ".data ++ x) = false := by
  show isWsOnly ('S' :: ("peaker ".data ++ x)) = false
  rw [isWsOnly, List.all_cons, show isPyWs 'S' = false from rfl]
  rfl

theorem labelLine_of_wsOnly (names : List (List Char)) {l : List Char}
    (hw : isWsOnly l = true) : labelLine names l = l := by
  simp [labelLine, speakerMatch_none_of_wsOnly hw]

theorem labelLine_wsOnly_eq (names : List (List Char)) (l : List Char) :
    isWsOnly (labelLine names l) = isWsOnly l := by
  cases hm : speakerMatch l with
  | none => simp [labelLine, hm]
  | some nd =>
    obtain ⟨n, d⟩ := nd
    rw [wsOnly_false_of_match hm]
    simp only [labelLine, hm]
    rw [show "Speaker ".data ++ (natToString (idxOf names n + 1)).data ++ ": ".data ++ d
      = "Speaker ".data ++ ((natToString (idxOf names n + 1)).data ++ ": ".data ++ d) by simp]
    exact wsOnly_append_speaker _

theorem okBlanks_map {f : List Char → List Char}
    (hf1 : ∀ l, isWsOnly (f l) = isWsOnly l)
    (hf2 : ∀ l, isWsOnly l = true → f l = l) :
    ∀ L, okBlanks L = true → okBlanks (L.map f) = true := by
  intro L
  induction L with
  | nil => intro _; rfl
  | cons l ls ih =>
    intro h
    cases ls with
    | nil =>
      simp only [List.map_cons, List.map_nil, okBlanks] at h ⊢
      by_cases hw : isWsOnly l
      · rw [hf2 l hw]
        exact h
      · simp [hf1, hw]
    | cons l2 ls2 =>
      have hh := okBlanks_head_cond h
      have iht := ih (okBlanks_tail h)
      simp only [List.map_cons] at iht ⊢
      rw [okBlanks, Bool.and_eq_true]
      refine ⟨?_, iht⟩
      by_cases hw : isWsOnly l
      · rw [hf2 l hw]
        simp only [hw, Bool.not_true, Bool.false_or] at hh
        rw [Bool.and_eq_true] at hh
        obtain ⟨he, hl2⟩ := hh
        simp [hw, he, hf1, hl2]
      · simp [hf1, hw]

theorem stdLines_of_none {L : List (List Char)}
    (h : ∀ l ∈ L, speakerMatch l = none) : ∀ seen, stdLines seen L = L := by
  induction L with
  | nil => intro _; rfl
  | cons l ls ih =>
    intro seen
    rw [stdLines]
    rw [h l (List.mem_cons_self _ _)]
    rw [ih (fun x hx => h x (List.mem_cons_of_mem l hx)) seen]

theorem joinNl_head_cons (a : Char) (m : List Char) (ms : List (List Char)) :
    (joinNl ((a :: m) :: ms)).head? = some a := by
  cases ms with
  | nil => rfl
  | cons x xs => rfl

/-- The head character of a normalized text is never whitespace. -/
theorem normalizeText_head (t : String) :
    ∀ c, (normalizeText t).data.head? = some c → isPyWs c = false := by
  intro c hc
  cases hX : stripWs t.data with
  | nil =>
    have hnil : (normalizeText t).data = [] := by
      show joinNl (stdLines [] (splitNl (joinNl (collapseLines (splitNl (stripWs t.data))))))
        = []
      rw [hX]
      rfl
    rw [hnil] at hc
    cases hc
  | cons c0 xs =>
    have hc0 : isPyWs c0 = false := stripWs_head t.data c0 (by rw [hX]; rfl)
    have hc0nl : c0 ≠ '\n' := by
      intro h
      rw [h] at hc0
      exact absurd hc0 (by decide)
    obtain ⟨l0, rest, hsplit⟩ := splitNlAux_first xs [c0]
    have hsplit' : splitNl (stripWs t.data) = (c0 :: l0) :: rest := by
      rw [hX]
      show splitNlAux (c0 :: xs) [] = _
      rw [splitNlAux, if_neg hc0nl, hsplit]
      simp
    have hw0 : isWsOnly (c0 :: l0) = false := by simp [isWsOnly, hc0]
    have hCL : collapseLines (splitNl (stripWs t.data)) = (c0 :: l0) :: clAux false rest := by
      rw [hsplit', collapseLines, clAux, if_neg (by simp [hw0] : ¬isWsOnly (c0 :: l0) = true)]
    have hCLnl : ∀ l ∈ (c0 :: l0) :: clAux false rest, '\n' ∉ l := by
      rw [← hCL]
      intro l hl
      rcases clAux_mem _ false l hl with rfl | hmem
      · simp
      · exact splitNl_no_nl _ l hmem
    have hdata : (normalizeText t).data
        = joinNl (stdLines [] ((c0 :: l0) :: clAux false rest)) := by
      show joinNl (stdLines [] (splitNl (joinNl (collapseLines (splitNl (stripWs t.data))))))
        = _
      rw [hCL, splitNl_joinNl _ (List.cons_ne_nil _ _) hCLnl]
    rw [hdata, stdLines_eq_map] at hc
    cases hm : speakerMatch (c0 :: l0) with
    | none =>
      have hf : labelLine (seenAfter [] ((c0 :: l0) :: clAux false rest)) (c0 :: l0)
          = c0 :: l0 := by simp [labelLine, hm]
      rw [List.map_cons, hf, joinNl_head_cons] at hc
      cases hc
      exact hc0
    | some nd =>
      obtain ⟨n, d⟩ := nd
      have hf : labelLine (seenAfter [] ((c0 :: l0) :: clAux false rest)) (c0 :: l0)
          = 'S' :: ("peaker ".data ++
              ((natToString (idxOf (seenAfter [] ((c0 :: l0) :: clAux false rest)) n + 1)).data
                ++ ": ".data ++ d)) := by
        simp [labelLine, hm]
      rw [List.map_cons, hf, joinNl_head_cons] at hc
      cases hc
      rfl

/-! ### Assembling the idempotence theorem -/

theorem standardize_clean_eq (t : String) :
    (normalizeText t).data
      = joinNl (stdLines [] (collapseLines (splitNl (stripWs t.data)))) := by
  have hCLne : collapseLines (splitNl (stripWs t.data)) ≠ [] := by
    rcases hsp : splitNl (stripWs t.data) with _ | ⟨l, ls⟩
    · exact absurd hsp (splitNl_ne_nil _)
    · exact clAux_false_ne_nil l ls
  have hCLnl : ∀ l ∈ collapseLines (splitNl (stripWs t.data)), '\n' ∉ l := by
    intro l hl
    rcases clAux_mem _ false l hl with rfl | hmem
    · simp
    · exact splitNl_no_nl _ l hmem
  show joinNl (stdLines [] (splitNl (joinNl (collapseLines (splitNl (stripWs t.data))))))
    = _
  rw [splitNl_joinNl _ hCLne hCLnl]

theorem normalizeText_fix (S : String)
    (hhead : ∀ c, S.data.head? = some c → isPyWs c = false)
    (htail : ∀ c, S.data.getLast? = some c → isPyWs c = false)
    (L : List (List Char)) (hok : okBlanks L = true)
    (hmn : ∀ m ∈ L, speakerMatch m = none) (hnl : ∀ m ∈ L, '\n' ∉ m)
    (hne : L ≠ []) (hSL : S.data = joinNl L) :
    normalizeText S = S := by
  have h1 : stripWs S.data = S.data := stripWs_eq_self hhead htail
  have h2 : splitNl S.data = L := by
    rw [hSL]
    exact splitNl_joinNl L hne hnl
  have h3 : collapseLines L = L := (clAux_id L hok).1
  have h4 : stdLines [] L = L := stdLines_of_none hmn []
  apply str_ext
  rw [standardize_clean_eq S, h1, h2, h3, h4, hSL]

theorem trail_not_ws_of_hasTrailWs {s : String} (h : hasTrailWs s = false) :
    ∀ c, s.data.getLast? = some c → isPyWs c = false := by
  intro c hgl
  unfold hasTrailWs at h
  rw [hgl] at h
  exact h

theorem no_nl_speaker_line (names : List (List Char)) (n d : List Char)
    (hd : ∀ c ∈ d, c ≠ '\n') :
    '\n' ∉ "Speaker ".data ++ (natToString (idxOf names n + 1)).data ++ ": ".data ++ d := by
  intro hmem
  rcases List.mem_append.mp hmem with h1 | h1
  · rcases List.mem_append.mp h1 with h2 | h2
    · rcases List.mem_append.mp h2 with h3 | h3
      · simp at h3
      · exact ne_nl_of_isDigit (natToString_all_digits _ '\n' h3) rfl
    · simp at h2
  · exact hd '\n' h1 rfl

theorem replay_normalize_text (store : Store) (artifact_id : String) (env : Env)
    (out : Artifact) (st₂ : Store)
    (h : replay store artifact_id Stage.normalize env = (Except.ok out, st₂)) :
    ∃ d s, lookupDict store artifact_id = some d ∧
      (from_dict d).content.text = some s ∧
      out.content.text = some (normalizeText s) := by
  unfold replay load_artifact at h
  cases hl : lookupDict store artifact_id with
  | none => rw [hl] at h; exact absurd (congrArg Prod.fst h) (by simp)
  | some d =>
    rw [hl] at h
    simp only [] at h
    cases ht : (from_dict d).content.text with
    | none => rw [ht] at h; exact absurd (congrArg Prod.fst h) (by simp)
    | some txt =>
      rw [ht] at h
      unfold normalize at h
      obtain ⟨hout, _⟩ := saveStep_ok h
      subst hout
      exact ⟨d, txt, rfl, ht, rfl⟩

/-- C10 counterexample: the normalize text transformation is not
idempotent — a final speaker line with empty dialogue is rewritten to
`Speaker 1: ` with a trailing space, which the second pass strips. -/
theorem c10_counterexample :
    normalizeText (normalizeText "Bob:") ≠ normalizeText "Bob:" := by decide

/-- C10 (amended): the normalize text transformation is idempotent on
every text whose normalized form does not end in whitespace (the only
exception the code allows: a final standardized speaker line with empty
dialogue carries a trailing space, which a second pass strips);
consequently, replaying the normalize stage on a transcript artifact whose
content text is such a normalized form reproduces the content text
exactly. -/
theorem c10_normalize_idempotent (t : String)
    (h : hasTrailWs (normalizeText t) = false) :
    normalizeText (normalizeText t) = normalizeText t ∧
    (∀ (store : Store) (artifact_id : String) (d : ArtDict) (out : Artifact)
      (st₂ : Store) (env : Env),
      lookupDict store artifact_id = some d →
      (from_dict d).content.text = some (normalizeText t) →
      replay store artifact_id Stage.normalize env = (Except.ok out, st₂) →
      out.content.text = (from_dict d).content.text) := by
  have hok0 := clAux_ok (splitNl (stripWs t.data))
  have hfix : normalizeText (normalizeText t) = normalizeText t := by
    set CL := collapseLines (splitNl (stripWs t.data)) with hCLdef
    set F := seenAfter [] CL with hFdef
    have hCLne : CL ≠ [] := by
      rw [hCLdef]
      rcases hsp : splitNl (stripWs t.data) with _ | ⟨l, ls⟩
      · exact absurd hsp (splitNl_ne_nil _)
      · exact clAux_false_ne_nil l ls
    have hCLnl : ∀ l ∈ CL, '\n' ∉ l := by
      intro l hl
      rcases clAux_mem _ false l hl with rfl | hmem
      · simp
      · exact splitNl_no_nl _ l hmem
    have hokCL : okBlanks CL = true := hok0.1
    have hSL : (normalizeText t).data = joinNl (CL.map (labelLine F)) := by
      rw [standardize_clean_eq t, stdLines_eq_map]
    apply normalizeText_fix (normalizeText t) (normalizeText_head t)
      (trail_not_ws_of_hasTrailWs h) (CL.map (labelLine F))
    · exact okBlanks_map (labelLine_wsOnly_eq F) (fun l hl => labelLine_of_wsOnly F hl)
        CL hokCL
    · intro m hm
      obtain ⟨l, hl, rfl⟩ := List.mem_map.mp hm
      cases hsm : speakerMatch l with
      | none => simp [labelLine, hsm]
      | some nd =>
        obtain ⟨n, d⟩ := nd
        simp only [labelLine, hsm]
        rcases hnts : (natToString (idxOf F n + 1)).data with _ | ⟨d0, dt⟩
        · exact absurd hnts (natToString_ne_nil _)
        · exact speakerMatch_speaker_line _ d d0 dt rfl
            (fun c hc => natToString_all_digits _ c (hnts ▸ hc))
    · intro m hm
      obtain ⟨l, hl, rfl⟩ := List.mem_map.mp hm
      cases hsm : speakerMatch l with
      | none =>
        simp only [labelLine, hsm]
        exact hCLnl l hl
      | some nd =>
        obtain ⟨n, d⟩ := nd
        simp only [labelLine, hsm]
        refine no_nl_speaker_line F n d ?_
        intro c hc hcnl
        subst hcnl
        exact hCLnl l hl (speakerMatch_d_subset hsm '\n' hc)
    · intro hnil
      exact hCLne (List.map_eq_nil_iff.mp hnil)
    · exact hSL
  refine ⟨hfix, ?_⟩
  intro store artifact_id d out st₂ env hlk htxt hrep
  obtain ⟨d', s', hd', hs', hout⟩ := replay_normalize_text store artifact_id env out st₂ hrep
  rw [hlk] at hd'
  have hdd : d' = d := (Option.some.inj hd').symm
  subst hdd
  rw [htxt] at hs'
  have hss : s' = normalizeText t := (Option.some.inj hs').symm
  subst hss
  rw [hout, hfix, htxt]

/-- Witness for the amended C10 at a concrete two-speaker transcript with
a blank line: its normalized form has no trailing whitespace and is a
fixed point of the transformation. -/
theorem c10_witness :
    hasTrailWs (normalizeText "Bob: hi\n\nAmy: yo") = false ∧
    normalizeText (normalizeText "Bob: hi\n\nAmy: yo") = normalizeText "Bob: hi\n\nAmy: yo" :=
  ⟨by decide, (c10_normalize_idempotent "Bob: hi\n\nAmy: yo" (by decide)).1⟩

end KIE
